import Mathlib

set_option autoImplicit false

namespace Aporia

/-! Shallow embedding of the Aporia-Zero network core (consensus engine,
authenticated state, crypto primitives), translated from the Rust sources in
`src/core/src`.  Machine integers (`u64`) are modelled as `ℕ` (none of the
embedded code paths overflows on the inputs considered; Rust would panic
rather than wrap), `f64` ratio comparisons are modelled exactly over `ℚ`,
byte strings as `List ℕ`, hash maps as association lists or total functions,
and fallible or panicking code as `Except`/`Option`.  The prime field
`E::Fr` and group `E::G1Projective` of the generic `PairingEngine` parameter
are carried as type parameters, exactly as the Rust code is generic over
them; external primitives (SHA3, arkworks serialization) enter as function
parameters. -/

/-- Byte strings (`Vec<u8>`); a byte is a `ℕ` (values `< 256` in practice). -/
abbrev Bytes := List ℕ

/-- `ValidatorId(pub Vec<u8>)` from `consensus/types.rs`. -/
abbrev ValidatorId := List ℕ

/-- `AccountId(pub Vec<u8>)` from `state/account.rs`. -/
abbrev AccountId := List ℕ

/-- `ConsensusError` from `consensus/errors.rs`. -/
inductive ConsensusError where
  | InvalidIdentityProof (msg : String)
  | InvalidBlock (msg : String)
  | InsufficientStake (stake : ℕ)
  | InvalidValidatorSet (msg : String)
  | StateTransitionError (msg : String)
  | VotingError (msg : String)
  | SelectionError (msg : String)
  | InitializationError (msg : String)
  deriving DecidableEq, Repr

/-- `StateError` from `state/mod.rs`. -/
inductive StateError where
  | StorageError (msg : String)
  | MerkleError (msg : String)
  | TransitionError (msg : String)
  | ValidationError (msg : String)
  | AccountError (msg : String)
  | SerializationError (msg : String)
  deriving DecidableEq, Repr

/-- `CryptoError` from `crypto/mod.rs`. -/
inductive CryptoError where
  | HashError (msg : String)
  | KeyError (msg : String)
  | ProofError (msg : String)
  | SignatureError (msg : String)
  | EncryptionError (msg : String)
  | ParameterError (msg : String)
  deriving DecidableEq, Repr

/-- `Display` for `CryptoError` (`crypto/mod.rs`), used where Rust calls
`e.to_string()`. -/
def CryptoError.display : CryptoError → String
  | .HashError msg => "Hash error: " ++ msg
  | .KeyError msg => "Key error: " ++ msg
  | .ProofError msg => "Proof error: " ++ msg
  | .SignatureError msg => "Signature error: " ++ msg
  | .EncryptionError msg => "Encryption error: " ++ msg
  | .ParameterError msg => "Parameter error: " ++ msg

/-- Fixed-width little-endian byte encoding; `leBytes 8 n` is
`u64::to_le_bytes` (all embedded values fit in 64 bits). -/
def leBytes (width n : ℕ) : Bytes :=
  (List.range width).map fun i => n / 256 ^ i % 256

/-- Value of a little-endian byte string (used to model how arkworks reads
random bytes into a big integer). -/
def leVal (bytes : Bytes) : ℕ :=
  bytes.foldr (fun b acc => b + 256 * acc) 0

/-- Association-list lookup, modelling `HashMap::get`. -/
def findA {K V : Type} [DecidableEq K] : List (K × V) → K → Option V
  | [], _ => none
  | (k', v) :: t, k => if k' = k then some v else findA t k

/-- Association-list insert-or-replace, modelling `HashMap::insert`
(the map holds at most one entry per key). -/
def insertA {K V : Type} [DecidableEq K] : List (K × V) → K → V → List (K × V)
  | [], k, v => [(k, v)]
  | (k', v') :: t, k, v => if k' = k then (k, v) :: t else (k', v') :: insertA t k v

/-- Association-list removal, modelling `HashMap::remove` (drops the first
entry with the key). -/
def eraseA {K V : Type} [DecidableEq K] : List (K × V) → K → List (K × V)
  | [], _ => []
  | (k', v') :: t, k => if k' = k then t else (k', v') :: eraseA t k

/-! ## Voting manager (`consensus/voting.rs`)

`votes: HashMap<E::Fr, Vec<Vote<E>>>` is modelled as a total function from
block hashes to vote lists (a missing key maps to `[]`, matching
`entry(..).or_insert_with(Vec::new)`), `weights` as an association list so
that `weights.values().sum()` ranges over exactly the stored entries. -/

/-- `Vote` from `consensus/types.rs`. -/
structure Vote (F : Type) where
  voter : ValidatorId
  block_hash : F
  signature : Bytes
  deriving DecidableEq

/-- `VotingManager` state from `consensus/voting.rs` (`threshold: f64` is
carried exactly as a rational). -/
structure VotingManager (F : Type) where
  threshold : ℚ
  votes : F → List (Vote F)
  weights : List (ValidatorId × ℕ)

/-- `weights.values().sum()` in `check_consensus`. -/
def totalWeight (weights : List (ValidatorId × ℕ)) : ℕ :=
  (weights.map Prod.snd).sum

/-- `votes.iter().filter_map(|vote| weights.get(&vote.voter)).sum()` in
`check_consensus`. -/
def votesWeight {F : Type} (weights : List (ValidatorId × ℕ)) (votes : List (Vote F)) : ℕ :=
  (votes.filterMap fun v => findA weights v.voter).sum

/-- `VotingManager::check_consensus`: `(vote_weight as f64 / total_weight as
f64) >= self.threshold`.  The `f64` quotient is modelled exactly in `ℚ`;
Rust's `0.0 / 0.0 = NaN` compares `false` against the threshold, and so does
the Lean convention `x / 0 = 0` for every positive threshold. -/
def checkConsensus {F : Type} (threshold : ℚ) (weights : List (ValidatorId × ℕ))
    (votes : List (Vote F)) : Bool :=
  decide (threshold ≤ (votesWeight weights votes : ℚ) / (totalWeight weights : ℚ))

/-- `VotingManager::add_vote`.  Rust mutates `self` behind a lock; the model
returns the updated manager together with the consensus flag, and an error
leaves the caller's manager untouched (in Rust the push happens only after
the duplicate check). -/
def addVote {F : Type} [DecidableEq F] (vm : VotingManager F) (vote : Vote F) :
    Except ConsensusError (VotingManager F × Bool) :=
  let blockVotes := vm.votes vote.block_hash
  if blockVotes.any (fun v => v.voter = vote.voter) then
    .error (.VotingError "Duplicate vote detected")
  else
    let newVotes := blockVotes ++ [vote]
    .ok ({ vm with votes := fun h => if h = vote.block_hash then newVotes else vm.votes h },
         checkConsensus vm.threshold vm.weights newVotes)

/-- `VotingManager::verify_vote_signature` (placeholder check in the source:
reject exactly the empty signature). -/
def verifyVoteSignature {F : Type} (vote : Vote F) : Except ConsensusError Unit :=
  if vote.signature.isEmpty then .error (.VotingError "Invalid vote signature")
  else .ok ()

/-- `VotingManager::submit_vote`. -/
def submitVote {F : Type} [DecidableEq F] (vm : VotingManager F) (block_hash : F)
    (voter : ValidatorId) (signature : Bytes) :
    Except ConsensusError (VotingManager F × Bool) :=
  let vote : Vote F := ⟨voter, block_hash, signature⟩
  match verifyVoteSignature vote with
  | .error e => .error e
  | .ok () => addVote vm vote

/-! ## Consensus data types (`consensus/types.rs`) -/

/-- `IdentityProof` from `consensus/types.rs`. -/
structure IdentityProof (F : Type) where
  proof : Bytes
  public_inputs : List F
  deriving DecidableEq

/-- `Block` from `consensus/types.rs`. -/
structure Block (F : Type) where
  height : ℕ
  timestamp : ℕ
  prev_hash : F
  hash : F
  producer : ValidatorId
  identity_proof : IdentityProof F
  epoch_length : ℕ
  deriving DecidableEq

/-- `ConsensusState` from `consensus/types.rs`. -/
structure ConsensusState (F : Type) where
  epoch : ℕ
  height : ℕ
  last_block_hash : F
  validator_set_root : F
  epoch_start : ℕ
  deriving DecidableEq

/-- `ConsensusConfig` from `consensus/types.rs` (`selection_threshold: f64`
as `ℚ`). -/
structure ConsensusConfig where
  min_validators : ℕ
  max_validators : ℕ
  min_stake : ℕ
  block_time : ℕ
  epoch_length : ℕ
  max_block_size : ℕ
  selection_threshold : ℚ
  deriving DecidableEq

/-- `ConsensusState::apply_block`.  `block.height % block.epoch_length` is a
Rust `u64` remainder: with `epoch_length = 0` it panics (division by zero),
modelled as `none`; otherwise the function always succeeds (the source
returns `Ok(())` on every path). -/
def ConsensusState.applyBlock {F : Type} (st : ConsensusState F) (block : Block F) :
    Option (ConsensusState F) :=
  if block.epoch_length = 0 then none
  else
    let st₁ := { st with height := block.height, last_block_hash := block.hash }
    if block.height % block.epoch_length = 0 then
      some { st₁ with epoch := st₁.epoch + 1, epoch_start := block.timestamp }
    else
      some st₁

/-! ## Block producer (`consensus/block_producer.rs`)

`calculate_block_hash` feeds SHA3-256 with `state.height.to_le_bytes()` and
`state.last_block_hash.to_bytes()` and converts the digest with
`E::Fr::from_random_bytes`.  The composite digest-to-field map enters as the
parameter `hashToField : Bytes → Option F` (`none` models the fallible
conversion) and the field serialization as `serF : F → Bytes`. -/

/-- `BlockProducer::calculate_block_hash`: the preimage is exactly
`state.height` (8 bytes LE) followed by the serialized
`state.last_block_hash` — nothing else. -/
def calculateBlockHash {F : Type} (hashToField : Bytes → Option F) (serF : F → Bytes)
    (state : ConsensusState F) : Except ConsensusError F :=
  match hashToField (leBytes 8 state.height ++ serF state.last_block_hash) with
  | some h => .ok h
  | none => .error (.InvalidBlock "Invalid hash conversion")

/-- `BlockProducer::verify_block_time` (used during creation). -/
def verifyBlockTime (block_time last_time current_time : ℕ) : Except ConsensusError Unit :=
  if current_time < last_time + block_time then
    .error (.StateTransitionError "Block time too early")
  else .ok ()

/-- `BlockProducer::create_block` (the wall clock read and the
`last_block_time` lock cell are passed in as values). -/
def createBlock {F : Type} (hashToField : Bytes → Option F) (serF : F → Bytes)
    (config : ConsensusConfig) (state : ConsensusState F)
    (last_block_time current_time : ℕ) (producer : ValidatorId)
    (identity_proof : Bytes) : Except ConsensusError (Block F) :=
  match verifyBlockTime config.block_time last_block_time current_time with
  | .error e => .error e
  | .ok () =>
    match calculateBlockHash hashToField serF state with
    | .error e => .error e
    | .ok h =>
      .ok { height := state.height + 1
            timestamp := current_time
            prev_hash := state.last_block_hash
            hash := h
            producer := producer
            identity_proof := ⟨identity_proof, []⟩
            epoch_length := config.epoch_length }

/-- `BlockProducer::verify_block_timing`. -/
def verifyBlockTiming {F : Type} (block_time last_time : ℕ) (block : Block F) :
    Except ConsensusError Unit :=
  if block.timestamp < last_time + block_time then
    .error (.InvalidBlock "Block time too early")
  else if block.timestamp > last_time + block_time * 2 then
    .error (.InvalidBlock "Block time too late")
  else .ok ()

/-- The block-hash preimage claimed by the specification (§4.5): modelled
from the spec's words
`H_to_F(height_LE ∥ serialize(prev_hash) ∥ timestamp_LE ∥ producer.id ∥
identity_proof.blob ∥ epoch_length_LE)`, for comparison against
`calculateBlockHash` (refinement check only; the source never computes
this). -/
def specBlockHash {F : Type} (hashToField : Bytes → Option F) (serF : F → Bytes)
    (block : Block F) : Option F :=
  hashToField (leBytes 8 block.height ++ serF block.prev_hash ++
    leBytes 8 block.timestamp ++ block.producer ++ block.identity_proof.proof ++
    leBytes 8 block.epoch_length)

/-! ## Validator set (`consensus/types.rs`, `consensus/validator.rs`)

`ValidatorSet.validators: HashMap<ValidatorId, Validator<E>>` is an
association list with insert-or-replace semantics; iteration order is
irrelevant to every embedded computation (only sums and lookups occur). -/

/-- `ValidatorPerformance` from `consensus/types.rs` (`uptime: f64` as `ℚ`;
`Default` gives all zeroes). -/
structure ValidatorPerformance where
  blocks_produced : ℕ
  blocks_missed : ℕ
  uptime : ℚ
  deriving DecidableEq

/-- `Validator` from `consensus/types.rs`. -/
structure Validator (F : Type) where
  id : ValidatorId
  stake : ℕ
  identity_commitment : F
  last_block : ℕ
  performance : ValidatorPerformance
  deriving DecidableEq

/-- `ValidatorSet` from `consensus/types.rs`. -/
structure ValidatorSet (F : Type) where
  validators : List (ValidatorId × Validator F)
  total_stake : ℕ
  deriving DecidableEq

/-- `ValidatorSet::new`. -/
def ValidatorSet.new {F : Type} : ValidatorSet F := ⟨[], 0⟩

/-- `ValidatorSet::add_validator`: adds the incoming stake to `total_stake`
and then `HashMap::insert`s (replacing any existing entry for the id). -/
def ValidatorSet.addValidator {F : Type} (vs : ValidatorSet F) (validator : Validator F) :
    ValidatorSet F :=
  { validators := insertA vs.validators validator.id validator
    total_stake := vs.total_stake + validator.stake }

/-- `ValidatorSet::remove_validator`.  `total_stake -= validator.stake` is
`u64` subtraction; `ℕ` truncation stands in for the Rust debug-mode panic on
underflow (underflow is impossible while the stake invariant holds). -/
def ValidatorSet.removeValidator {F : Type} (vs : ValidatorSet F) (id : ValidatorId) :
    ValidatorSet F :=
  match findA vs.validators id with
  | some validator =>
    { validators := eraseA vs.validators id
      total_stake := vs.total_stake - validator.stake }
  | none => vs

/-- The exact sum of the member stakes (`Σ stake` from the specification's
invariant; not a function of the source, which only caches `total_stake`). -/
def sumStakes {F : Type} (vs : ValidatorSet F) : ℕ :=
  (vs.validators.map fun p => p.2.stake).sum

/-- `ValidatorManager::register_validator` (the manager's lock cell is the
passed-in set; `min_stake` and `max_validators` are the manager fields). -/
def registerValidator {F : Type} (min_stake max_validators : ℕ) (vs : ValidatorSet F)
    (id : ValidatorId) (stake : ℕ) (identity_commitment : F) :
    Except ConsensusError (ValidatorSet F) :=
  if stake < min_stake then .error (.InsufficientStake stake)
  else if max_validators ≤ vs.validators.length then
    .error (.InvalidValidatorSet "Maximum validator limit reached")
  else
    .ok (vs.addValidator
      { id := id, stake := stake, identity_commitment := identity_commitment,
        last_block := 0, performance := ⟨0, 0, 0⟩ })

/-- `ValidatorManager::update_stake`: writes `validator.stake = new_stake`
through `get_validator_mut` and returns — the cached `total_stake` is left
untouched, exactly as in the source. -/
def updateStake {F : Type} (min_stake : ℕ) (vs : ValidatorSet F) (id : ValidatorId)
    (new_stake : ℕ) : Except ConsensusError (ValidatorSet F) :=
  match findA vs.validators id with
  | some validator =>
    if new_stake < min_stake then .error (.InsufficientStake new_stake)
    else .ok { vs with validators := insertA vs.validators id { validator with stake := new_stake } }
  | none => .error (.InvalidValidatorSet "Validator not found")

/-! ## Sparse Merkle tree (`state/merkle_tree.rs`)

Leaf and internal hashing go through `CryptoHash::hash_to_field`; the two
resulting byte-to-field maps enter as the parameters `hashLeaf` and
`hashNodes` (their fallibility is irrelevant to the results below, which
hold for every hash).  `get_path` derives the path bits from SHA3-256 of the
key — it enters as the parameter `getPath`, so results quantified over
`getPath` cover the source's choice.  A `Node` has optional children;
`Option.unwrap()` on a missing child is a Rust panic, modelled as `none`. -/

/-- `Node` from `state/merkle_tree.rs`. -/
inductive MNode (F : Type) where
  | mk (hash : F) (value : Option Bytes) (left : Option (MNode F)) (right : Option (MNode F))

/-- Node hash accessor. -/
def MNode.hash {F : Type} : MNode F → F
  | .mk h _ _ _ => h

/-- Node value accessor. -/
def MNode.value {F : Type} : MNode F → Option Bytes
  | .mk _ v _ _ => v

/-- Left child accessor. -/
def MNode.left {F : Type} : MNode F → Option (MNode F)
  | .mk _ _ l _ => l

/-- Right child accessor. -/
def MNode.right {F : Type} : MNode F → Option (MNode F)
  | .mk _ _ _ r => r

/-- The all-empty node `Node { hash: E::Fr::zero(), value: None, left: None,
right: None }` (`zero` is the field's zero, passed as a value). -/
def MNode.empty {F : Type} (zero : F) : MNode F := .mk zero none none none

/-- The tail of the internal-node case of `MerkleTree::update_leaf`: given
the recursion's result for the path child, recompute `node.hash` from
`node.left.as_ref().unwrap()` / `node.right.as_ref().unwrap()` and the new
child hash, and store the new child — a panic (`none`) whenever the sibling
of the updated child is absent. -/
def updateLeafStep {F : Type} (hashNodes : F → F → F) (node : MNode F) (pathBit : Bool) :
    Option (MNode F) → Option (MNode F)
  | none => none
  | some newChild =>
    if pathBit then
      match node.left with
      | none => none
      | some l => some (.mk (hashNodes l.hash newChild.hash) node.value node.left (some newChild))
    else
      match node.right with
      | none => none
      | some r => some (.mk (hashNodes newChild.hash r.hash) node.value (some newChild) node.right)

/-- `MerkleTree::update_leaf`.  The third argument is the current `depth`,
the fourth the number of levels still to descend (`self.depth - depth`,
which the source tracks implicitly through `depth == self.depth`).  At the
leaf level the node's value and hash are overwritten; at an internal node
the source recurses into the path child (`get_or_insert_with` materialises
it as an all-empty node if absent) and finishes with `updateLeafStep`. -/
def updateLeaf {F : Type} (hashLeaf : Bytes → F) (hashNodes : F → F → F) (zero : F)
    (path : ℕ → Bool) (value : Bytes) : MNode F → ℕ → ℕ → Option (MNode F)
  | node, _, 0 => some (.mk (hashLeaf value) (some value) node.left node.right)
  | node, depth, rem + 1 =>
    let child := (if path depth then node.right else node.left).getD (MNode.empty zero)
    updateLeafStep hashNodes node (path depth)
      (updateLeaf hashLeaf hashNodes zero path value child (depth + 1) rem)

/-- `MerkleTree` from `state/merkle_tree.rs` (the hasher configuration lives
in the hash parameters). -/
structure MerkleTree (F : Type) where
  root : MNode F
  depth : ℕ

/-- `MerkleTree::new`. -/
def MerkleTree.new {F : Type} (zero : F) (depth : ℕ) : MerkleTree F :=
  ⟨MNode.empty zero, depth⟩

/-- `MerkleTree::update`: derives the path with `getPath` (in the source,
the bits of SHA3-256 of the key, LSB-first per byte) and rewrites the leaf,
returning the new root hash; `none` is the Rust panic inside
`update_leaf`. -/
def MerkleTree.update {F : Type} (hashLeaf : Bytes → F) (hashNodes : F → F → F) (zero : F)
    (getPath : Bytes → ℕ → Bool) (t : MerkleTree F) (key value : Bytes) :
    Option (F × MerkleTree F) :=
  (updateLeaf hashLeaf hashNodes zero (getPath key) value t.root 0 t.depth).map
    fun n => (n.hash, { t with root := n })

/-! ## Hash-to-field (`crypto/hash.rs`)

`CryptoHash::hash` with the default `HashConfig::new(256)` is SHA3-256: a
total 32-byte digest, entering as the parameter `sha3`.  The generic
`F::from_random_bytes` of arkworks `ark-ff 0.3` (the conversion the source
calls) reads the digest little-endian, masks it down to the field's
representation bit width, and returns `None` — without reducing — whenever
the masked value is not below the modulus. -/

/-- arkworks `PrimeField::from_random_bytes` for a prime field with modulus
`p` whose representation keeps `numBits` bits (`MODULUS_BITS`); the field
element is carried as its canonical natural representative. -/
def fromRandomBytes (p numBits : ℕ) (bytes : Bytes) : Option ℕ :=
  let v := leVal bytes % 2 ^ numBits
  if v < p then some v else none

/-- `CryptoHash::hash_to_field` (SHA3-256 variant): hash, then convert, with
the source's `HashError` on a failed conversion. -/
def hashToFieldFn (sha3 : Bytes → Bytes) (p numBits : ℕ) (data : Bytes) :
    Except CryptoError ℕ :=
  match fromRandomBytes p numBits (sha3 data) with
  | some x => .ok x
  | none => .error (.HashError "Failed to convert hash to field element")

/-- The BLS12-381 scalar-field modulus (the `E::Fr` every test and caller of
the source instantiates; `MODULUS_BITS = 255`). -/
def blsScalarModulus : ℕ :=
  52435875175126190479447740508185965837690552500527637822603658699938581184513

/-! ## Signatures (`crypto/signature.rs`)

The scheme is generic over the scalar field `F` and the group `G` (an
`F`-module with generator `g`, as `G1Projective` is).  `generate_nonce` and
`hash_message_and_point` both run SHA3-256 followed by
`E::Fr::from_random_bytes`; the composite fallible map enters as the single
parameter `hashFr : Bytes → Except CryptoError F` applied to the exact
concatenations the source hashes, with the serializations `serF`
(`into_repr().to_bytes_le()` of a scalar) and `serG` (of a point) as
parameters. -/

/-- `Signature` from `crypto/signature.rs`. -/
structure Signature (F G : Type) where
  r : G
  s : F
  deriving DecidableEq

section SignatureScheme

variable {F G : Type} [CommRing F] [AddCommGroup G] [Module F G] [DecidableEq G]

/-- `SignatureScheme::generate_nonce`: `k = H_to_F(sk_bytes ∥ m)`. -/
def generateNonce (hashFr : Bytes → Except CryptoError F) (serF : F → Bytes)
    (message : Bytes) (private_key : F) : Except CryptoError F :=
  hashFr (serF private_key ++ message)

/-- `SignatureScheme::hash_message_and_point`: `h = H_to_F(point_bytes ∥ m)`. -/
def hashMessageAndPoint (hashFr : Bytes → Except CryptoError F) (serG : G → Bytes)
    (message : Bytes) (point : G) : Except CryptoError F :=
  hashFr (serG point ++ message)

/-- `SignatureScheme::sign`: `R = g·k`, `s = k − h·sk`. -/
def SignatureScheme.sign (hashFr : Bytes → Except CryptoError F) (serF : F → Bytes)
    (serG : G → Bytes) (g : G) (message : Bytes) (private_key : F) :
    Except CryptoError (Signature F G) :=
  match generateNonce hashFr serF message private_key with
  | .error e => .error e
  | .ok k =>
    let r := k • g
    match hashMessageAndPoint hashFr serG message r with
    | .error e => .error e
    | .ok h => .ok ⟨r, k - h * private_key⟩

/-- `SignatureScheme::verify`: accept iff `g·s = R − pk·h`. -/
def SignatureScheme.verify (hashFr : Bytes → Except CryptoError F) (serG : G → Bytes)
    (g : G) (message : Bytes) (signature : Signature F G) (public_key : G) :
    Except CryptoError Bool :=
  match hashMessageAndPoint hashFr serG message signature.r with
  | .error e => .error e
  | .ok h => .ok (decide (signature.s • g = signature.r - h • public_key))

end SignatureScheme

/-! ## Accounts, transactions and validation (`state/account.rs`,
`state/transaction.rs`, `state/transition.rs`)

Only the validation path is embedded (the claims under check concern
`validate_transaction` and `validate_block`).  `encode_for_signing` uses
arkworks `CanonicalSerialize`: a `u8` is one byte, a `u64` eight
little-endian bytes, a `bool` one byte, and a `Vec<u8>` an eight-byte
little-endian length prefix followed by the bytes. -/

/-- `TransactionType` from `state/transaction.rs`. -/
inductive TransactionType where
  | Transfer
  | Deploy
  | Call
  | CreateAccount
  | UpdateAccount
  deriving DecidableEq

/-- The `as u8` enum cast in `encode_for_signing`. -/
def TransactionType.toU8 : TransactionType → ℕ
  | .Transfer => 0
  | .Deploy => 1
  | .Call => 2
  | .CreateAccount => 3
  | .UpdateAccount => 4

/-- `Account` from `state/account.rs` (storage as an association list). -/
structure Account (F G : Type) where
  id : AccountId
  nonce : ℕ
  balance : ℕ
  public_key : G
  state_root : F
  code_hash : Option F
  storage : List (F × F)
  deriving DecidableEq

/-- `Transaction` from `state/transaction.rs` (`from` and `to` are Lean
keywords, so those fields are `from_` and `to_`). -/
structure Transaction (F G : Type) where
  tx_type : TransactionType
  nonce : ℕ
  from_ : AccountId
  to_ : Option AccountId
  value : ℕ
  gas_price : ℕ
  gas_limit : ℕ
  data : Bytes
  signature : Option (Signature F G)
  computation_proof : Option Bytes
  deriving DecidableEq

/-- `CanonicalSerialize` of a `Vec<u8>`: `u64` length prefix, then bytes. -/
def serVec (v : Bytes) : Bytes := leBytes 8 v.length ++ v

/-- `Transaction::encode_for_signing` (every field except `signature` and
`computation_proof`, in source order). -/
def encodeForSigning {F G : Type} (tx : Transaction F G) : Bytes :=
  [tx.tx_type.toU8] ++ leBytes 8 tx.nonce ++ serVec tx.from_ ++
    (match tx.to_ with
     | some t => [1] ++ serVec t
     | none => [0]) ++
    leBytes 8 tx.value ++ leBytes 8 tx.gas_price ++ leBytes 8 tx.gas_limit ++
    serVec tx.data

section Transition

variable {F G : Type} [CommRing F] [AddCommGroup G] [Module F G] [DecidableEq G]

/-- `Transaction::verify_signature`: demands a signature and delegates to
`SignatureScheme::verify` over the canonical encoding, mapping crypto errors
to `ValidationError(e.to_string())`. -/
def Transaction.verifySignature (hashFr : Bytes → Except CryptoError F)
    (serG : G → Bytes) (g : G) (tx : Transaction F G) (public_key : G) :
    Except StateError Bool :=
  match tx.signature with
  | none => .error (.ValidationError "Missing signature")
  | some signature =>
    match SignatureScheme.verify hashFr serG g (encodeForSigning tx) signature public_key with
    | .error e => .error (.ValidationError e.display)
    | .ok b => .ok b

/-- `Transaction::verify_computation`: demands a proof and accepts exactly
the non-empty ones (placeholder verification in the source). -/
def Transaction.verifyComputation {F G : Type} (tx : Transaction F G) :
    Except StateError Bool :=
  match tx.computation_proof with
  | none => .error (.ValidationError "Missing computation proof")
  | some proof => .ok (!proof.isEmpty)

/-- `State` from `state/types.rs` (accounts as an association list). -/
structure State (F G : Type) where
  accounts : List (AccountId × Account F G)
  root : F
  version : ℕ
  block_height : ℕ
  timestamp : ℕ
  deriving DecidableEq

/-- `State::get_account`. -/
def State.getAccount {F G : Type} (st : State F G) (id : AccountId) : Option (Account F G) :=
  findA st.accounts id

/-- `StateTransition::validate_transaction`: sender exists, strict nonce
equality, signature over the canonical encoding, non-empty computation
proof, and sufficient balance — in source order. -/
def validateTransaction (hashFr : Bytes → Except CryptoError F) (serG : G → Bytes)
    (g : G) (st : State F G) (tx : Transaction F G) : Except StateError Unit :=
  match st.getAccount tx.from_ with
  | none => .error (.ValidationError "Sender account not found")
  | some sender =>
    if tx.nonce ≠ sender.nonce then .error (.ValidationError "Invalid nonce")
    else
      match tx.verifySignature hashFr serG g sender.public_key with
      | .error e => .error e
      | .ok ok_sig =>
        if !ok_sig then .error (.ValidationError "Invalid signature")
        else
          match tx.verifyComputation with
          | .error e => .error e
          | .ok ok_comp =>
            if !ok_comp then .error (.ValidationError "Invalid computation proof")
            else if sender.balance < tx.value then
              .error (.ValidationError "Insufficient balance")
            else .ok ()

/-- The loop body of `StateTransition::validate_block`: `nonce_map` is the
running `HashMap<AccountId, u64>` (a total function; `entry(..).or_insert(0)`
makes an absent key read as `0`), checked and incremented per transaction
after the per-transaction validation. -/
def validateBlockGo (hashFr : Bytes → Except CryptoError F) (serG : G → Bytes) (g : G)
    (st : State F G) (nonce_map : AccountId → ℕ) :
    List (Transaction F G) → Except StateError Unit
  | [] => .ok ()
  | tx :: rest =>
    match validateTransaction hashFr serG g st tx with
    | .error e => .error e
    | .ok () =>
      if tx.nonce ≠ nonce_map tx.from_ then
        .error (.ValidationError "Invalid nonce sequence")
      else
        validateBlockGo hashFr serG g st
          (fun a => if a = tx.from_ then nonce_map a + 1 else nonce_map a) rest

/-- `StateTransition::validate_block`: the nonce map starts empty, so every
sender's expected sequence starts at `0`. -/
def validateBlock (hashFr : Bytes → Except CryptoError F) (serG : G → Bytes) (g : G)
    (st : State F G) (transactions : List (Transaction F G)) : Except StateError Unit :=
  validateBlockGo hashFr serG g st (fun _ => 0) transactions

end Transition

/-- The per-sender nonce sequence of an ordered transaction list, in block
order (the object of the specification's block-level nonce rule). -/
def senderNonces {F G : Type} (transactions : List (Transaction F G)) (a : AccountId) :
    List ℕ :=
  (transactions.filter fun tx => tx.from_ = a).map fun tx => tx.nonce

/-! ## Concrete instantiations

Closed evaluations instantiate the engine's field/group with computable
carriers: `Bytes` itself with the identity conversion where only the hash
plumbing matters, and `ℤ` (a `CommRing` that is a module over itself, with
`g = 1`) where signature algebra matters.  The hash parameters are constant
functions; every embedded result quantified over the hash covers them. -/

/-- A consensus state fixture with a nonzero last block hash (`F := Bytes`,
field serialization `id`, hash-to-field `some`). -/
def c3State : ConsensusState Bytes := ⟨0, 0, [7], [0], 0⟩

/-- A consensus config fixture with `block_time = 6` and `epoch_length = 100`. -/
def c3Config : ConsensusConfig := ⟨4, 100, 1000, 6, 100, 5242880, 67 / 100⟩

/-- The block `create_block` assembles from `c3State` at time 6 with
producer `[9]` and identity-proof blob `[1, 2]`: its `hash` is the digest of
`leBytes 8 0 ++ [7]` (the parent height and previous hash), which under the
identity hash is the preimage itself. -/
def c3Block : Block Bytes := ⟨1, 6, [7], [0, 0, 0, 0, 0, 0, 0, 0, 7], [9], ⟨[1, 2], []⟩, 100⟩

/-- Constant hash-to-field fixture over `ℤ` (the scheme is quantified over
the hash, so any value exercises the control flow). -/
def c4hashFr : Bytes → Except CryptoError ℤ := fun _ => .ok 2

/-- Trivial point serialization fixture over `ℤ`. -/
def c4serG : ℤ → Bytes := fun _ => []

/-- A sender account at nonce 1 with public key `0 = 0 • g`. -/
def c4sender : Account ℤ ℤ := ⟨[1], 1, 0, 0, 0, none, []⟩

/-- A state holding only `c4sender`. -/
def c4state : State ℤ ℤ := ⟨[([1], c4sender)], 0, 0, 0, 0⟩

/-- A transfer from `c4sender` carrying the sender's current nonce 1 and a
signature that verifies under `c4hashFr` (`h = 2`, `s • g = 2 = r - h • 0`). -/
def c4tx : Transaction ℤ ℤ := ⟨.Transfer, 1, [1], some [2], 0, 0, 0, [], some ⟨2, 2⟩, some [1]⟩

/-- `c4sender` at nonce 0. -/
def c4sender0 : Account ℤ ℤ := ⟨[1], 0, 0, 0, 0, none, []⟩

/-- A state holding only `c4sender0`. -/
def c4state0 : State ℤ ℤ := ⟨[([1], c4sender0)], 0, 0, 0, 0⟩

/-- `c4tx` with nonce 0, matching `c4sender0`. -/
def c4tx0 : Transaction ℤ ℤ := ⟨.Transfer, 0, [1], some [2], 0, 0, 0, [], some ⟨2, 2⟩, some [1]⟩

/-! ## Theorems -/

/-- C7 `verify_block_timing` accepts exactly the timestamps in the closed
interval `[last_block_time + block_time, last_block_time + 2·block_time]`
and reports `InvalidBlock` outside it; with `last_block_time = 1000` and
`block_time = 6`, timestamp 1005 is rejected as too early, 1006 passes, and
1013 is rejected as too late. -/
theorem verifyBlockTiming_window :
    (∀ (F : Type) (block_time last_time : ℕ) (b : Block F),
        verifyBlockTiming block_time last_time b = .ok () ↔
          last_time + block_time ≤ b.timestamp ∧
            b.timestamp ≤ last_time + 2 * block_time) ∧
    verifyBlockTiming 6 1000 (⟨1, 1005, 0, 0, [], ⟨[], []⟩, 0⟩ : Block ℕ) =
      .error (.InvalidBlock "Block time too early") ∧
    verifyBlockTiming 6 1000 (⟨1, 1006, 0, 0, [], ⟨[], []⟩, 0⟩ : Block ℕ) = .ok () ∧
    verifyBlockTiming 6 1000 (⟨1, 1013, 0, 0, [], ⟨[], []⟩, 0⟩ : Block ℕ) =
      .error (.InvalidBlock "Block time too late") := by
  refine ⟨?_, rfl, rfl, rfl⟩
  intro F block_time last_time b
  unfold verifyBlockTiming
  split_ifs with h1 h2 <;> simp <;> omega

/-- C10 `ConsensusState::apply_block` panics exactly when
`block.epoch_length = 0` (the `%` would divide by zero); under the
precondition `epoch_length ≠ 0` it always succeeds, sets `height` to
`block.height` and `last_block_hash` to `block.hash`, and increments the
epoch (setting `epoch_start` to the block's timestamp) exactly when
`block.height` is divisible by `block.epoch_length`. -/
theorem applyBlock_spec {F : Type} (st : ConsensusState F) (block : Block F) :
    (st.applyBlock block = none ↔ block.epoch_length = 0) ∧
    (block.epoch_length ≠ 0 →
      ∃ st', st.applyBlock block = some st' ∧
        st'.height = block.height ∧ st'.last_block_hash = block.hash ∧
        st'.validator_set_root = st.validator_set_root ∧
        (block.height % block.epoch_length = 0 →
          st'.epoch = st.epoch + 1 ∧ st'.epoch_start = block.timestamp) ∧
        (block.height % block.epoch_length ≠ 0 →
          st'.epoch = st.epoch ∧ st'.epoch_start = st.epoch_start)) := by
  unfold ConsensusState.applyBlock
  by_cases h0 : block.epoch_length = 0
  · rw [if_pos h0]
    exact ⟨by simp [h0], fun hc => absurd h0 hc⟩
  · rw [if_neg h0]
    refine ⟨?_, fun _ => ?_⟩
    · by_cases hm : block.height % block.epoch_length = 0 <;> simp [hm, h0]
    · by_cases hm : block.height % block.epoch_length = 0
      · rw [if_pos hm]
        exact ⟨_, rfl, rfl, rfl, rfl, fun _ => ⟨rfl, rfl⟩, fun hc => absurd hm hc⟩
      · rw [if_neg hm]
        exact ⟨_, rfl, rfl, rfl, rfl, fun hc => absurd hc hm, fun _ => ⟨rfl, rfl⟩⟩

/-- Witness for `applyBlock_spec`: a concrete block at an epoch boundary
(`height 4`, `epoch_length 2`). -/
theorem applyBlock_spec_witness :
    ∃ st', ConsensusState.applyBlock (F := ℕ) ⟨3, 5, 7, 9, 11⟩
        ⟨4, 20, 7, 13, [], ⟨[], []⟩, 2⟩ = some st' ∧
      st'.height = 4 ∧ st'.last_block_hash = 13 ∧ st'.validator_set_root = 9 ∧
      ((4 : ℕ) % 2 = 0 → st'.epoch = 3 + 1 ∧ st'.epoch_start = 20) ∧
      ((4 : ℕ) % 2 ≠ 0 → st'.epoch = 3 ∧ st'.epoch_start = 11) :=
  (applyBlock_spec ⟨3, 5, 7, 9, 11⟩ ⟨4, 20, 7, 13, [], ⟨[], []⟩, 2⟩).2 (by decide)

/-- C2 `update_stake` overwrites a member's stake without touching the
cached `total_stake`: after `register_validator(V1, 1000)` followed by
`update_stake(V1, 2000)` the set caches `total_stake = 1000` while the exact
sum of member stakes is 2000, breaking the `total_stake = Σ stake`
invariant. -/
theorem updateStake_breaks_totalStake_invariant :
    ((registerValidator (F := ℕ) 1000 100 ValidatorSet.new [1] 1000 0).bind
        fun vs => updateStake 1000 vs [1] 2000) =
      .ok ⟨[([1], ⟨[1], 2000, 0, 0, ⟨0, 0, 0⟩⟩)], 1000⟩ ∧
    sumStakes (F := ℕ) ⟨[([1], ⟨[1], 2000, 0, 0, ⟨0, 0, 0⟩⟩)], 1000⟩ = 2000 ∧
    ValidatorSet.total_stake (F := ℕ) ⟨[([1], ⟨[1], 2000, 0, 0, ⟨0, 0, 0⟩⟩)], 1000⟩ = 1000 ∧
    (2000 : ℕ) ≠ 1000 :=
  ⟨rfl, rfl, rfl, by decide⟩

/-- C9 `hash_to_field` is not total: a 32-byte digest of `0xFF` bytes reads
(after masking to the 255 representation bits) as `2^255 − 1`, which is not
below the BLS12-381 scalar modulus, so `from_random_bytes` rejects it and
`hash_to_field` returns the `HashError`. -/
theorem hashToFieldFn_error_on_large_digest :
    hashToFieldFn (fun _ => List.replicate 32 255) blsScalarModulus 255 [] =
      .error (.HashError "Failed to convert hash to field element") := rfl

/-- C9 (amended) `hash_to_field` is deterministic (it is a pure function of
the input), and it returns `Ok` exactly when the masked little-endian value
of the digest is below the modulus — the error branch is live otherwise
(arkworks rejects out-of-range digests instead of reducing them). -/
theorem hashToFieldFn_ok_iff_below_modulus (sha3 : Bytes → Bytes) (p numBits : ℕ)
    (data : Bytes) :
    hashToFieldFn sha3 p numBits data = hashToFieldFn sha3 p numBits data ∧
    (hashToFieldFn sha3 p numBits data = .ok (leVal (sha3 data) % 2 ^ numBits) ↔
      leVal (sha3 data) % 2 ^ numBits < p) ∧
    (hashToFieldFn sha3 p numBits data =
        .error (.HashError "Failed to convert hash to field element") ↔
      ¬ leVal (sha3 data) % 2 ^ numBits < p) := by
  refine ⟨rfl, ?_, ?_⟩ <;>
    · unfold hashToFieldFn fromRandomBytes
      by_cases h : leVal (sha3 data) % 2 ^ numBits < p <;> simp [h]

/-- C3 (counterexample) the hash of a block assembled by `create_block` is
not the digest of `height ∥ prev_hash ∥ timestamp ∥ producer ∥ proof blob ∥
epoch_length` claimed by the specification: instantiating the engine with
`F := Bytes` and the identity hash, the created block's hash is
`leBytes 8 0 ++ [7]` while the claimed preimage differs. -/
theorem createBlock_hash_omits_spec_fields :
    createBlock (F := Bytes) some id c3Config c3State 0 6 [9] [1, 2] = .ok c3Block ∧
    specBlockHash (F := Bytes) some id c3Block ≠ some c3Block.hash :=
  ⟨rfl, by decide⟩

/-- C3 (amended) every block returned by `create_block` has
`height = state.height + 1`, `prev_hash = state.last_block_hash`, and a
`hash` equal to the digest of `state.height` (8 bytes LE) followed by the
serialized `state.last_block_hash` — equivalently, of
`(block.height − 1)_LE ∥ serialize(block.prev_hash)`; the timestamp,
producer, identity proof and epoch length are not part of the preimage. -/
theorem createBlock_hash_preimage {F : Type} (hashToField : Bytes → Option F)
    (serF : F → Bytes) (config : ConsensusConfig) (state : ConsensusState F)
    (last_block_time current_time : ℕ) (producer : ValidatorId)
    (identity_proof : Bytes) (b : Block F)
    (h : createBlock hashToField serF config state last_block_time current_time
        producer identity_proof = .ok b) :
    b.height = state.height + 1 ∧ b.prev_hash = state.last_block_hash ∧
    hashToField (leBytes 8 state.height ++ serF state.last_block_hash) = some b.hash ∧
    hashToField (leBytes 8 (b.height - 1) ++ serF b.prev_hash) = some b.hash := by
  unfold createBlock at h
  cases hvt : verifyBlockTime config.block_time last_block_time current_time with
  | error e => rw [hvt] at h; cases h
  | ok u =>
    rw [hvt] at h
    unfold calculateBlockHash at h
    cases hcb : hashToField (leBytes 8 state.height ++ serF state.last_block_hash) with
    | none => rw [hcb] at h; cases h
    | some hv =>
      rw [hcb] at h
      cases h
      exact ⟨rfl, rfl, rfl, by simpa using hcb⟩

/-- Witness for `createBlock_hash_preimage` at the `c3State` fixture. -/
theorem createBlock_hash_preimage_witness :
    c3Block.height = c3State.height + 1 ∧ c3Block.prev_hash = c3State.last_block_hash ∧
    some (leBytes 8 c3State.height ++ id c3State.last_block_hash) = some c3Block.hash ∧
    some (leBytes 8 (c3Block.height - 1) ++ id c3Block.prev_hash) = some c3Block.hash :=
  createBlock_hash_preimage some id c3Config c3State 0 6 [9] [1, 2] c3Block rfl

/-- Rehashing at a node with no children panics for every recursion result:
both `unwrap()` calls find `None`. -/
theorem updateLeafStep_empty_none {F : Type} (hashNodes : F → F → F) (zero : F)
    (pathBit : Bool) (res : Option (MNode F)) :
    updateLeafStep hashNodes (MNode.empty zero) pathBit res = none := by
  cases res <;> cases pathBit <;> rfl

/-- Updating any key of an all-empty subtree with at least one level below
it panics — the freshly inserted child's sibling is absent and `unwrap()`
fails while rehashing. -/
theorem updateLeaf_empty_none {F : Type} (hashLeaf : Bytes → F) (hashNodes : F → F → F)
    (zero : F) (path : ℕ → Bool) (value : Bytes) (rem depth : ℕ) :
    updateLeaf hashLeaf hashNodes zero path value (MNode.empty zero) depth (rem + 1) =
      none := by
  show updateLeafStep hashNodes (MNode.empty zero) (path depth) _ = none
  exact updateLeafStep_empty_none hashNodes zero (path depth) _

/-- C1 `MerkleTree::update` panics (`unwrap()` on a missing sibling node)
for every key and value on a freshly created tree of any positive depth —
in particular on the source's own test (`depth 8`, key `test_key`) and the
default `depth 256` — so the update/proof/verify round trip of the claim
never gets past `update`. -/
theorem merkleTree_update_panics_on_fresh_tree {F : Type} (hashLeaf : Bytes → F)
    (hashNodes : F → F → F) (zero : F) (getPath : Bytes → ℕ → Bool)
    (key value : Bytes) (d : ℕ) :
    MerkleTree.update hashLeaf hashNodes zero getPath (MerkleTree.new zero (d + 1))
      key value = none := by
  simp [MerkleTree.update, MerkleTree.new, updateLeaf_empty_none]

/-- C8 a second vote from the same voter for the same block hash (with any
non-empty signature) is rejected with the duplicate `VotingError`, and a
successful vote grows the block's vote list by exactly one — so after one
vote and a duplicate attempt the list for the hash has length 1. -/
theorem submitVote_duplicate_rejected {F : Type} [DecidableEq F] (vm : VotingManager F)
    (h : F) (voter : ValidatorId) (sig sig₂ : Bytes)
    (hsig : sig ≠ []) (hsig₂ : sig₂ ≠ [])
    (hnew : voter ∉ (vm.votes h).map Vote.voter) :
    ((submitVote vm h voter sig).bind fun p => submitVote p.1 h voter sig₂) =
      .error (.VotingError "Duplicate vote detected") ∧
    (submitVote vm h voter sig).map (fun p => (p.1.votes h).length) =
      .ok ((vm.votes h).length + 1) := by
  have hsigE : sig.isEmpty = false := by
    cases sig
    · exact absurd rfl hsig
    · rfl
  have hsigE₂ : sig₂.isEmpty = false := by
    cases sig₂
    · exact absurd rfl hsig₂
    · rfl
  have hdup : ((vm.votes h).any fun v => decide (v.voter = voter)) = false := by
    rw [List.any_eq_false]
    intro v hv
    simp only [decide_eq_true_eq]
    intro hvv
    exact hnew (List.mem_map.mpr ⟨v, hv, hvv⟩)
  constructor <;>
    simp [submitVote, verifyVoteSignature, addVote, hsigE, hsigE₂, hdup, Except.bind,
      Except.map, List.any_append]

/-- Witness for `submitVote_duplicate_rejected`: one weighted voter, a
successful vote, then a duplicate. -/
theorem submitVote_duplicate_rejected_witness :
    ((submitVote (F := ℕ) ⟨67 / 100, fun _ => [], [([1], 100)]⟩ 1 [1] [1, 2, 3]).bind
        fun p => submitVote p.1 1 [1] [1, 2, 3]) =
      .error (.VotingError "Duplicate vote detected") ∧
    (submitVote (F := ℕ) ⟨67 / 100, fun _ => [], [([1], 100)]⟩ 1 [1] [1, 2, 3]).map
        (fun p => (p.1.votes 1).length) = .ok 1 :=
  submitVote_duplicate_rejected ⟨67 / 100, fun _ => [], [([1], 100)]⟩ 1 [1] [1, 2, 3]
    [1, 2, 3] (by decide) (by decide) (by decide)

/-- C5 (amended) a successful `submit_vote` reports consensus exactly when
the summed weight `S` of the recorded voters satisfies `S / T ≥ threshold`
with `T` the sum of all weights and `T > 0` (never when `T = 0`); the ratio
is the source's `f64` quotient, modelled exactly over `ℚ`. -/
theorem submitVote_consensus_iff_threshold {F : Type} [DecidableEq F]
    (vm : VotingManager F) (h : F) (voter : ValidatorId) (sig : Bytes)
    (hthr : 0 < vm.threshold) (hsig : sig ≠ [])
    (hnew : voter ∉ (vm.votes h).map Vote.voter) :
    (submitVote vm h voter sig).map Prod.snd =
      .ok (decide (0 < totalWeight vm.weights ∧
        vm.threshold ≤ (votesWeight vm.weights (vm.votes h ++ [⟨voter, h, sig⟩]) : ℚ) /
          (totalWeight vm.weights : ℚ))) := by
  have hsigE : sig.isEmpty = false := by
    cases sig
    · exact absurd rfl hsig
    · rfl
  have hdup : ((vm.votes h).any fun v => decide (v.voter = voter)) = false := by
    rw [List.any_eq_false]
    intro v hv
    simp only [decide_eq_true_eq]
    intro hvv
    exact hnew (List.mem_map.mpr ⟨v, hv, hvv⟩)
  simp only [submitVote, verifyVoteSignature, addVote, hsigE, hdup, Except.map,
    Bool.false_eq_true, if_false, reduceIte]
  congr 1
  unfold checkConsensus
  rw [decide_eq_decide]
  constructor
  · intro hle
    have hT : totalWeight vm.weights ≠ 0 := by
      intro h0
      rw [h0] at hle
      norm_num at hle
      exact absurd hle (not_le.mpr hthr)
    exact ⟨Nat.pos_of_ne_zero hT, hle⟩
  · exact fun hc => hc.2

/-- Witness for `submitVote_consensus_iff_threshold`: the first of three
equal-weight voters. -/
theorem submitVote_consensus_iff_threshold_witness :
    (submitVote (F := ℕ) ⟨67 / 100, fun _ => [], [([1], 100), ([2], 100), ([3], 100)]⟩
        1 [1] [1]).map Prod.snd =
      .ok (decide (0 < totalWeight [([1], 100), ([2], 100), ([3], 100)] ∧
        (67 / 100 : ℚ) ≤
          (votesWeight [([1], 100), ([2], 100), ([3], 100)]
              ((fun _ => ([] : List (Vote ℕ))) 1 ++ [⟨[1], 1, [1]⟩]) : ℚ) /
            (totalWeight [([1], 100), ([2], 100), ([3], 100)] : ℚ))) :=
  submitVote_consensus_iff_threshold ⟨67 / 100, fun _ => [], [([1], 100), ([2], 100), ([3], 100)]⟩
    1 [1] [1] (by norm_num) (by decide) (by decide)

/-- C5 (counterexample to the claimed trace) with weights 100/100/100 and
threshold 0.67, the second of three votes does not reach consensus:
`200 / 300 = 2/3 < 0.67`, so the results are false, false (not true), and
true — the third vote is the first to reach quorum. -/
theorem submitVote_two_thirds_below_threshold :
    ((submitVote (F := ℕ) ⟨67 / 100, fun _ => [], [([1], 100), ([2], 100), ([3], 100)]⟩
          1 [1] [1]).map Prod.snd = .ok false) ∧
    (((submitVote (F := ℕ) ⟨67 / 100, fun _ => [], [([1], 100), ([2], 100), ([3], 100)]⟩
          1 [1] [1]).bind fun p => submitVote p.1 1 [2] [1]).map Prod.snd = .ok false) ∧
    (((submitVote (F := ℕ) ⟨67 / 100, fun _ => [], [([1], 100), ([2], 100), ([3], 100)]⟩
          1 [1] [1]).bind fun p => (submitVote p.1 1 [2] [1]).bind
            fun q => submitVote q.1 1 [3] [1]).map Prod.snd = .ok true) := by
  have hw1 : votesWeight (F := ℕ) [([1], 100), ([2], 100), ([3], 100)] [⟨[1], 1, [1]⟩] = 100 :=
    rfl
  have hw2 : votesWeight (F := ℕ) [([1], 100), ([2], 100), ([3], 100)]
      [⟨[1], 1, [1]⟩, ⟨[2], 1, [1]⟩] = 200 := rfl
  have hw3 : votesWeight (F := ℕ) [([1], 100), ([2], 100), ([3], 100)]
      [⟨[1], 1, [1]⟩, ⟨[2], 1, [1]⟩, ⟨[3], 1, [1]⟩] = 300 := rfl
  have ht : totalWeight [([1], 100), ([2], 100), ([3], 100)] = 300 := rfl
  have hc1 : checkConsensus (F := ℕ) (67 / 100) [([1], 100), ([2], 100), ([3], 100)]
      [⟨[1], 1, [1]⟩] = false := by
    unfold checkConsensus
    rw [hw1, ht, decide_eq_false_iff_not]
    push_cast
    norm_num
  have hc2 : checkConsensus (F := ℕ) (67 / 100) [([1], 100), ([2], 100), ([3], 100)]
      [⟨[1], 1, [1]⟩, ⟨[2], 1, [1]⟩] = false := by
    unfold checkConsensus
    rw [hw2, ht, decide_eq_false_iff_not]
    push_cast
    norm_num
  have hc3 : checkConsensus (F := ℕ) (67 / 100) [([1], 100), ([2], 100), ([3], 100)]
      [⟨[1], 1, [1]⟩, ⟨[2], 1, [1]⟩, ⟨[3], 1, [1]⟩] = true := by
    unfold checkConsensus
    rw [hw3, ht, decide_eq_true_eq]
    push_cast
    norm_num
  refine ⟨?_, ?_, ?_⟩
  · show Except.ok (checkConsensus (F := ℕ) (67 / 100) [([1], 100), ([2], 100), ([3], 100)]
      [⟨[1], 1, [1]⟩]) = Except.ok false
    rw [hc1]
  · show Except.ok (checkConsensus (F := ℕ) (67 / 100) [([1], 100), ([2], 100), ([3], 100)]
      [⟨[1], 1, [1]⟩, ⟨[2], 1, [1]⟩]) = Except.ok false
    rw [hc2]
  · show Except.ok (checkConsensus (F := ℕ) (67 / 100) [([1], 100), ([2], 100), ([3], 100)]
      [⟨[1], 1, [1]⟩, ⟨[2], 1, [1]⟩, ⟨[3], 1, [1]⟩]) = Except.ok true
    rw [hc3]

/-- C6 for every secret key and message for which signing succeeds,
verification of the signature against the matching public key `sk • g`
accepts: `s • g = (k − h·sk) • g = R − h • pk`, with the verifier
recomputing the same `h` from the same deterministic hash. -/
theorem sign_verify_roundtrip {F G : Type} [CommRing F] [AddCommGroup G] [Module F G]
    [DecidableEq G] (hashFr : Bytes → Except CryptoError F) (serF : F → Bytes)
    (serG : G → Bytes) (g : G) (message : Bytes) (private_key : F)
    (signature : Signature F G)
    (h : SignatureScheme.sign hashFr serF serG g message private_key = .ok signature) :
    SignatureScheme.verify hashFr serG g message signature (private_key • g) = .ok true := by
  unfold SignatureScheme.sign at h
  cases hk : generateNonce hashFr serF message private_key with
  | error e => rw [hk] at h; cases h
  | ok k =>
    rw [hk] at h
    have h' : (match hashMessageAndPoint hashFr serG message (k • g) with
        | Except.error e => Except.error e
        | Except.ok hv =>
          Except.ok (⟨k • g, k - hv * private_key⟩ : Signature F G)) = Except.ok signature := h
    cases hh : hashMessageAndPoint hashFr serG message (k • g) with
    | error e => rw [hh] at h'; cases h'
    | ok hv =>
      rw [hh] at h'
      cases h'
      unfold SignatureScheme.verify
      have hr : hashMessageAndPoint hashFr serG message
          (Signature.mk (F := F) (k • g) (k - hv * private_key)).r = Except.ok hv := hh
      rw [hr]
      simp [sub_smul, mul_smul]

/-- Witness for `sign_verify_roundtrip` over `ℤ` as both scalar ring and
group, with generator 1 and a constant hash. -/
theorem sign_verify_roundtrip_witness :
    SignatureScheme.verify (F := ℤ) (G := ℤ) (fun _ => .ok 2) (fun _ => []) 1 []
      ⟨2, -4⟩ ((3 : ℤ) • 1) = .ok true :=
  sign_verify_roundtrip (fun _ => .ok 2) (fun _ => []) (fun _ => []) 1 [] 3 ⟨2, -4⟩ rfl

/-- C4 (counterexample) a block holding a single transaction that passes
every per-transaction check — in particular its nonce equals the sender's
current nonce 1 — is rejected by `validate_block` with "Invalid nonce
sequence": the block-level nonce map starts at 0 for every sender, not at
the sender's current nonce. -/
theorem validateBlock_rejects_nonzero_start_nonce :
    validateTransaction c4hashFr c4serG 1 c4state c4tx = .ok () ∧
    validateBlock c4hashFr c4serG 1 c4state [c4tx] =
      .error (.ValidationError "Invalid nonce sequence") :=
  ⟨rfl, rfl⟩

/-- The invariant of the `validate_block` loop: if the loop accepts the
remaining transactions starting from nonce map `m`, every sender's nonce
sequence among them counts up consecutively from its `m`-entry. -/
theorem validateBlockGo_senderNonces {F G : Type} [CommRing F] [AddCommGroup G]
    [Module F G] [DecidableEq G] (hashFr : Bytes → Except CryptoError F)
    (serG : G → Bytes) (g : G) (st : State F G) :
    ∀ (txs : List (Transaction F G)) (m : AccountId → ℕ),
      validateBlockGo hashFr serG g st m txs = .ok () →
      ∀ a, ∃ n, senderNonces txs a = List.range' (m a) n := by
  intro txs
  induction txs with
  | nil =>
    intro m _ a
    exact ⟨0, by simp [senderNonces]⟩
  | cons tx rest ih =>
    intro m hok a
    rw [validateBlockGo] at hok
    cases hv : validateTransaction hashFr serG g st tx with
    | error e => rw [hv] at hok; cases hok
    | ok u =>
      rw [hv] at hok
      by_cases hn : tx.nonce ≠ m tx.from_
      · rw [if_pos hn] at hok; cases hok
      · rw [if_neg hn] at hok
        push_neg at hn
        have ih' := ih _ hok
        by_cases ha : tx.from_ = a
        · subst ha
          have hcons : senderNonces (tx :: rest) tx.from_ =
              tx.nonce :: senderNonces rest tx.from_ := by
            simp [senderNonces]
          obtain ⟨n, htail⟩ := ih' tx.from_
          rw [if_pos rfl] at htail
          exact ⟨n + 1, by rw [hcons, htail, hn, List.range'_succ]⟩
        · have hskip : senderNonces (tx :: rest) a = senderNonces rest a := by
            simp [senderNonces, List.filter_cons, ha]
          obtain ⟨n, htail⟩ := ih' a
          rw [if_neg (fun hh : a = tx.from_ => ha hh.symm)] at htail
          exact ⟨n, by rw [hskip, htail]⟩

/-- C4 (amended) `validate_block` accepts an ordered transaction list only
if each sender's nonces form the consecutive ascending sequence
`0, 1, 2, …` — starting at 0, not at the sender's current state nonce (the
per-transaction check additionally forces each nonce to equal the sender's
current nonce, so a single-transaction block passes both checks exactly
when the sender's current nonce is 0). -/
theorem validateBlock_nonce_sequences_start_at_zero {F G : Type} [CommRing F]
    [AddCommGroup G] [Module F G] [DecidableEq G] (hashFr : Bytes → Except CryptoError F)
    (serG : G → Bytes) (g : G) (st : State F G) (txs : List (Transaction F G))
    (hok : validateBlock hashFr serG g st txs = .ok ()) (a : AccountId) :
    senderNonces txs a = List.range (senderNonces txs a).length := by
  obtain ⟨n, hn⟩ := validateBlockGo_senderNonces hashFr serG g st txs (fun _ => 0) hok a
  rw [List.range_eq_range', hn, List.length_range']

/-- Witness for `validateBlock_nonce_sequences_start_at_zero`: the sender at
current nonce 0 submitting a single nonce-0 transaction validates, and its
nonce sequence is `range 1`. -/
theorem validateBlock_nonce_sequences_start_at_zero_witness :
    senderNonces [c4tx0] [1] = List.range (senderNonces [c4tx0] [1]).length :=
  validateBlock_nonce_sequences_start_at_zero c4hashFr c4serG 1 c4state0 [c4tx0] (by rfl) [1]

end Aporia
